import Mathlib

/-!
Shallow embedding of the log-analysis core of `app/analyze_logs.py`:
`parse_log_entry`, `analyze_log_entries` and `suggest_solutions`.

Strings are modelled as `List Char`.  The Python regexes used by the code
are embedded as executable scanning functions with Python `re` semantics
(leftmost match, alternatives tried in order, greedy repetition with
backtracking).  `\b` and `\w` are modelled with ASCII word characters
(`[A-Za-z0-9_]`), and `str.strip` with the ASCII whitespace characters,
which is faithful on the ASCII inputs the tool processes.
-/

/-- ASCII word character, the model of `\w` used by the `\b` boundaries. -/
def isWordChar (c : Char) : Bool :=
  c.isAlpha || c.isDigit || c == '_'

/-- Whitespace as stripped by Python `str.strip()` (ASCII part). -/
def isPyWhitespace (c : Char) : Bool :=
  c == ' ' || c == '\t' || c == '\n' || c == '\r' || c == '\x0b' || c == '\x0c'

/-- Whether position `i` of `s` holds a word character (`false` out of range). -/
def wordAt (s : List Char) (i : Nat) : Bool :=
  match s.get? i with
  | some c => isWordChar c
  | none => false

/-- The regex `\b` word boundary at position `i` of `s`. -/
def atBoundary (s : List Char) (i : Nat) : Bool :=
  if i = 0 then wordAt s 0 else wordAt s (i - 1) != wordAt s i

/-- Python `str.strip()`: drop leading and trailing whitespace. -/
def stripChars (s : List Char) : List Char :=
  ((s.dropWhile isPyWhitespace).reverse.dropWhile isPyWhitespace).reverse

/-- Index of the first occurrence of `sep` as a substring of `s`. -/
def findSubstr (s sep : List Char) : Option Nat :=
  (List.range (s.length + 1)).find? (fun i => sep.isPrefixOf (s.drop i))

/-- Python `'sep' in s`. -/
def containsSub (s sep : List Char) : Bool :=
  (findSubstr s sep).isSome

/-- Python `s.split(sep, 1)[-1]`: the text after the first occurrence of
`sep`, or `s` itself when `sep` does not occur. -/
def afterFirst (s sep : List Char) : List Char :=
  match findSubstr s sep with
  | some i => s.drop (i + sep.length)
  | none => s

/-- The seven severity keywords, in the order of the regex alternation
`ERROR|INFO|WARNING|DEBUG|CRITICAL|WARN|FATAL`. -/
def severityKeywords : List (List Char) :=
  ["ERROR", "INFO", "WARNING", "DEBUG", "CRITICAL", "WARN", "FATAL"].map String.toList

/-- Whether `\b kw \b` matches at position `i` of `s`, case-insensitively
(`kw` is upper case). -/
def matchKwAt (s : List Char) (i : Nat) (kw : List Char) : Bool :=
  atBoundary s i && atBoundary s (i + kw.length) &&
    ((s.drop i).take kw.length).map Char.toUpper == kw

/-- The first alternative of the severity regex matching at position `i`. -/
def findKwAt (s : List Char) (i : Nat) : Option (List Char) :=
  severityKeywords.find? (fun kw => matchKwAt s i kw)

/-- Embedding of `re.search(r'\b(ERROR|INFO|WARNING|DEBUG|CRITICAL|WARN|FATAL)\b', s, re.IGNORECASE)`:
the leftmost position where some alternative matches, with the alternative
(upper-cased, i.e. `group(1).upper()`). -/
def findSeverity (s : List Char) : Option (Nat × List Char) :=
  (List.range (s.length + 1)).findSome? (fun i => (findKwAt s i).map (fun kw => (i, kw)))

/-- The slice of `s` actually matched (`group(0)`): `kw.length` characters
starting at `i`, in their original case. -/
def matchedSlice (s : List Char) (i : Nat) (kw : List Char) : List Char :=
  (s.drop i).take kw.length

/-- Embedding of `re.search(r'\[([^\]]+)\]', s)`: contents of the first bracket holding
at least one non-`]` character. -/
def findComponent : List Char → Option (List Char)
  | [] => none
  | c :: rest =>
    if c = '[' then
      let inner := rest.takeWhile (fun d => d ≠ ']')
      if inner.length ≠ 0 ∧ inner.length < rest.length then some inner
      else findComponent rest
    else findComponent rest

/-- Digit at position `i`? -/
def dAt (s : List Char) (i : Nat) : Bool :=
  match s.get? i with
  | some c => c.isDigit
  | none => false

/-- Character `c` at position `i`? -/
def eqAt (s : List Char) (i : Nat) (c : Char) : Bool :=
  s.get? i == some c

/-- First timestamp alternative `\d{4}-\d{2}-\d{2}[T ]\d{2}:\d{2}:\d{2}`
at position `i`; returns the match length. -/
def matchTs1At (s : List Char) (i : Nat) : Option Nat :=
  if dAt s i && dAt s (i+1) && dAt s (i+2) && dAt s (i+3) && eqAt s (i+4) '-' &&
     dAt s (i+5) && dAt s (i+6) && eqAt s (i+7) '-' && dAt s (i+8) && dAt s (i+9) &&
     (eqAt s (i+10) 'T' || eqAt s (i+10) ' ') && dAt s (i+11) && dAt s (i+12) &&
     eqAt s (i+13) ':' && dAt s (i+14) && dAt s (i+15) && eqAt s (i+16) ':' &&
     dAt s (i+17) && dAt s (i+18)
  then some 19 else none

/-- Tail `\d{4}[ T]\d{2}:\d{2}` of the second timestamp alternative at
position `j`; returns the length measured from `i`. -/
def matchTs2Tail (s : List Char) (i j : Nat) : Option Nat :=
  if dAt s j && dAt s (j+1) && dAt s (j+2) && dAt s (j+3) &&
     (eqAt s (j+4) ' ' || eqAt s (j+4) 'T') && dAt s (j+5) && dAt s (j+6) &&
     eqAt s (j+7) ':' && dAt s (j+8) && dAt s (j+9)
  then some (j + 10 - i) else none

/-- Second timestamp alternative `(\d{1,2}/\d{1,2}/\d{4})[ T]\d{2}:\d{2}`
at position `i` (the greedy `\d{1,2}` choices are forced by the following
`/`); returns the match length. -/
def matchTs2At (s : List Char) (i : Nat) : Option Nat :=
  if dAt s i then
    let after1 : Option Nat :=
      if dAt s (i+1) && eqAt s (i+2) '/' then some (i+3)
      else if eqAt s (i+1) '/' then some (i+2)
      else none
    match after1 with
    | some p =>
      let after2 : Option Nat :=
        if dAt s p && dAt s (p+1) && eqAt s (p+2) '/' then some (p+3)
        else if dAt s p && eqAt s (p+1) '/' then some (p+2)
        else none
      match after2 with
      | some q => matchTs2Tail s i q
      | none => none
    | none => none
  else none

/-- Timestamp regex at position `i`: first alternative preferred. -/
def tsMatchAt (s : List Char) (i : Nat) : Option Nat :=
  match matchTs1At s i with
  | some n => some n
  | none => matchTs2At s i

/-- Embedding of `re.search` of the timestamp regex: `group(0)` of the leftmost match. -/
def findTimestamp (s : List Char) : Option (List Char) :=
  (List.range (s.length + 1)).findSome? (fun i => (tsMatchAt s i).map (fun n => (s.drop i).take n))

/-- One parsed log line (`parse_log_entry`'s result dict). -/
structure LogEntry where
  raw : List Char
  timestamp : Option (List Char)
  severity : List Char
  component : Option (List Char)
  message : List Char
deriving Repr, DecidableEq

/-- The remainder searched for the component: after a severity match the
code runs `line.split(severity_match.group(0), 1)[-1].strip()` — it splits
on the first substring occurrence of the matched text — otherwise the
whole line. -/
def postSeverityRemainder (line : List Char) : List Char :=
  match findSeverity line with
  | some (i, kw) => stripChars (afterFirst line (matchedSlice line i kw))
  | none => line

/-- Embedding of `parse_log_entry` of `app/analyze_logs.py` (lines 72–93). -/
def parse_log_entry (line : List Char) : LogEntry :=
  let severity : List Char :=
    match findSeverity line with
    | some (_, kw) => kw
    | none => "UNKNOWN".toList
  let remainder := postSeverityRemainder line
  { raw := line
    timestamp := findTimestamp line
    severity := severity
    component := findComponent remainder
    message :=
      match findComponent remainder with
      | some _ => stripChars (afterFirst remainder ("]:".toList))
      | none => remainder }

example : parse_log_entry "2023-06-01 10:05:01 ERROR [Demo]: Connection failed".toList =
    { raw := "2023-06-01 10:05:01 ERROR [Demo]: Connection failed".toList
      timestamp := some "2023-06-01 10:05:01".toList
      severity := "ERROR".toList
      component := some "Demo".toList
      message := "Connection failed".toList } := by decide

example : parse_log_entry "ERROR [Demo] Connection failed".toList =
    { raw := "ERROR [Demo] Connection failed".toList
      timestamp := none
      severity := "ERROR".toList
      component := some "Demo".toList
      message := "[Demo] Connection failed".toList } := by decide

/-! ## Pattern normalization (`analyze_log_entries`, lines 125–126) -/

/-- The character class `[a-f0-9\-]` of the `<ID>` regex (case-sensitive:
the regex is compiled without `re.IGNORECASE`). -/
def isIdChar (c : Char) : Bool :=
  ('a' ≤ c && c ≤ 'f') || c.isDigit || c == '-'

/-- Largest `k ≤ r` with `8 ≤ k` and a `\b` boundary at `p + k` (the greedy
`{8,}` repetition backtracking from the maximal run length `r`). -/
def bestIdLen (s : List Char) (p r : Nat) : Option Nat :=
  (List.range (r + 1)).reverse.find? (fun k => 8 ≤ k && atBoundary s (p + k))

/-- Scanner for `re.sub(r'\b[a-f0-9\-]{8,}\b', '<ID>', s)`: at each position
try to match (boundary, maximal class run, greedy backtracking to a final
boundary of length ≥ 8); on a match emit `<ID>` and resume after it, else
copy one character.  `fuel` bounds the recursion; `s.length` suffices since
every step advances the position. -/
def subIdAux (s : List Char) : Nat → Nat → List Char
  | 0, _ => []
  | fuel + 1, p =>
    if h : p < s.length then
      if atBoundary s p then
        match bestIdLen s p (((s.drop p).takeWhile isIdChar).length) with
        | some k => "<ID>".toList ++ subIdAux s fuel (p + k)
        | none => s.get ⟨p, h⟩ :: subIdAux s fuel (p + 1)
      else s.get ⟨p, h⟩ :: subIdAux s fuel (p + 1)
    else []

/-- Embedding of `re.sub(r'\b[a-f0-9\-]{8,}\b', '<ID>', s)`. -/
def subId (s : List Char) : List Char :=
  subIdAux s s.length 0

/-- Scanner for `re.sub(r'\d+', '<NUM>', s)`: the flag records whether the
previous character was a digit (i.e. we are inside a run already replaced). -/
def subNumAux : List Char → Bool → List Char
  | [], _ => []
  | c :: cs, inNum =>
    if c.isDigit then
      (if inNum then [] else "<NUM>".toList) ++ subNumAux cs true
    else c :: subNumAux cs false

/-- Embedding of `re.sub(r'\d+', '<NUM>', s)`: every maximal digit run becomes `<NUM>`. -/
def subNum (s : List Char) : List Char :=
  subNumAux s false

/-- The two ordered substitutions applied to an error message (lines
125–126): `<ID>` masking, then `<NUM>` masking. -/
def normalizePattern (s : List Char) : List Char :=
  subNum (subId s)

example : normalizePattern "conn-id a1b2c3d4e5 failed after 30 retries".toList =
    "conn-id <ID> failed after <NUM> retries".toList := by decide

example : normalizePattern "DEADBEEF12 up".toList = "DEADBEEF<NUM> up".toList := by decide

/-! ## Counters and ranking (`Counter`, `most_common(10)`) -/

/-- One `counter[k] += 1` on an insertion-ordered association list: an
existing key is incremented in place, a new key is appended at the end
(Python dicts preserve insertion order). -/
def bump {α : Type} [DecidableEq α] : List (α × Nat) → α → List (α × Nat)
  | [], k => [(k, 1)]
  | (a, n) :: rest, k =>
    if a = k then (a, n + 1) :: rest else (a, n) :: bump rest k

/-- Embedding of `collections.Counter(l)` as an insertion-ordered association list. -/
def counterOf {α : Type} [DecidableEq α] (l : List α) : List (α × Nat) :=
  l.foldl bump []

/-- Insert `x` into a count-descending list, after every entry of count
`≥ x`'s (the stable placement used by `sorted(..., reverse=True)` and
`heapq.nlargest`). -/
def insertByCount {α : Type} (x : α × Nat) : List (α × Nat) → List (α × Nat)
  | [] => [x]
  | y :: ys => if x.2 ≤ y.2 then y :: insertByCount x ys else x :: y :: ys

/-- Stable sort by count descending (insertion sort, processing the list
left to right and placing each element after earlier equals). -/
def sortByCountDesc {α : Type} (l : List (α × Nat)) : List (α × Nat) :=
  l.foldl (fun acc x => insertByCount x acc) []

/-- Embedding of `Counter.most_common(10)`: stable sort by count descending, first 10. -/
def mostCommon10 {α : Type} [DecidableEq α] (l : List (α × Nat)) : List (α × Nat) :=
  (sortByCountDesc l).take 10

/-! ## The aggregation loop (`analyze_log_entries`, lines 95–136) -/

/-- Embedding of `errors_by_component[k].append(v)` on an insertion-ordered map from
component to message list (`defaultdict(list)`). -/
def ebcAdd : List (List Char × List (List Char)) → List Char → List Char →
    List (List Char × List (List Char))
  | [], k, v => [(k, [v])]
  | (a, vs) :: rest, k, v =>
    if a = k then (a, vs ++ [v]) :: rest else (a, vs) :: ebcAdd rest k v

/-- The mutable state of the `for entry in entries` loop. -/
structure AggState where
  sevs : List (List Char × Nat)
  comps : List (List Char × Nat)
  ebc : List (List Char × List (List Char))
  tss : List (List Char)
deriving Repr, DecidableEq

/-- The severities whose messages are buffered (line 106). -/
def errorSeverities : List (List Char) :=
  ["ERROR", "CRITICAL", "FATAL"].map String.toList

/-- The state updates of one loop iteration, on the parsed entry. -/
def aggStepP (st : AggState) (parsed : LogEntry) : AggState :=
  let st1 : AggState := { st with sevs := bump st.sevs parsed.severity }
  let st2 : AggState :=
    match parsed.component with
    | some c =>
      { st1 with
        comps := bump st1.comps c
        ebc := if parsed.severity ∈ errorSeverities
               then ebcAdd st1.ebc c parsed.message else st1.ebc }
    | none => st1
  match parsed.timestamp with
  | some t => { st2 with tss := st2.tss ++ [t] }
  | none => st2

/-- One iteration of the aggregation loop (lines 101–109). -/
def aggStep (st : AggState) (content : List Char) : AggState :=
  aggStepP st (parse_log_entry content)

/-- The whole aggregation loop over the entry contents. -/
def aggLoop (entries : List (List Char)) : AggState :=
  entries.foldl aggStep ⟨[], [], [], []⟩

/-- Python string `<` (lexicographic by code point). -/
def lexLt : List Char → List Char → Bool
  | [], [] => false
  | [], _ :: _ => true
  | _ :: _, [] => false
  | a :: as, b :: bs => if a = b then lexLt as bs else decide (a < b)

/-- Stable insertion for Python `sorted` (ascending). -/
def insertLex (x : List Char) : List (List Char) → List (List Char)
  | [] => [x]
  | y :: ys => if lexLt x y then x :: y :: ys else y :: insertLex x ys

/-- Python `sorted` on a list of strings. -/
def lexSort (l : List (List Char)) : List (List Char) :=
  l.foldl (fun acc x => insertLex x acc) []

/-- The `time_pattern` dict (lines 110–118). -/
structure TimePattern where
  first_occurrence : List Char
  last_occurrence : List Char
  total_occurrences : Nat
deriving Repr, DecidableEq

/-- The `time_pattern` value: `None` when no timestamps, else first/last of the
sorted timestamps with the total count. -/
def timePatternOf (tss : List (List Char)) : Option TimePattern :=
  match h : lexSort tss with
  | [] => none
  | x :: xs => some ⟨x, (x :: xs).getLast (by simp), tss.length⟩

/-- The per-component double loop building `error_patterns` (lines
121–127): for each buffered message that is nonempty and longer than 10
characters, append `(component, normalized pattern)`. -/
def patternPairs (entries : List (List Char)) : List (List Char × List Char) :=
  ((aggLoop entries).ebc.map (fun ce =>
    ce.2.filterMap (fun e =>
      if e ≠ [] ∧ 10 < e.length then some (ce.1, normalizePattern e) else none))).flatten

/-- Embedding of `Counter(error_patterns)` — keys in first-appearance order. -/
def patternCounter (entries : List (List Char)) : List ((List Char × List Char) × Nat) :=
  counterOf (patternPairs entries)

/-- Embedding of `Counter(error_patterns).most_common(10)`. -/
def commonPatterns (entries : List (List Char)) : List ((List Char × List Char) × Nat) :=
  mostCommon10 (patternCounter entries)

/-- One `{component, pattern, count}` row of `error_patterns`. -/
structure ErrorPattern where
  component : List Char
  pattern : List Char
  count : Nat
deriving Repr, DecidableEq

/-- The dict returned by `analyze_log_entries` (lines 129–136). -/
structure AnalysisSummary where
  total_entries : Nat
  severity_distribution : List (List Char × Nat)
  components : List (List Char × Nat)
  time_pattern : Option TimePattern
  error_patterns : List ErrorPattern
deriving Repr, DecidableEq

/-- Embedding of `analyze_log_entries` of `app/analyze_logs.py` (lines 95–136), taking
the `entry['content']` strings of the input entries. -/
def analyze_log_entries (entries : List (List Char)) : AnalysisSummary :=
  let st := aggLoop entries
  { total_entries := entries.length
    severity_distribution := st.sevs
    components := st.comps
    time_pattern := timePatternOf st.tss
    error_patterns := (commonPatterns entries).map (fun kc => ⟨kc.1.1, kc.1.2, kc.2⟩) }

/-! ## `suggest_solutions` (lines 138–161) -/

/-- A `{problem, solution}` suggestion. -/
structure Suggestion where
  problem : List Char
  solution : List Char
deriving Repr, DecidableEq

def connectionSuggestion : Suggestion :=
  ⟨"Connection issues".toList,
   "Check network settings, server availability, and timeouts.".toList⟩

def permissionSuggestion : Suggestion :=
  ⟨"Permission issues".toList,
   "Check file and system permissions, user roles, and ACLs.".toList⟩

def resourceSuggestion : Suggestion :=
  ⟨"System resource limits".toList,
   "Monitor and upgrade resource usage: RAM, CPU, storage.".toList⟩

def uncategorizedSuggestion : Suggestion :=
  ⟨"Uncategorized errors".toList,
   "Check logs manually. Consider refining component configs.".toList⟩

/-- The lower-cased patterns (line 140). -/
def lowerPatterns (analysis : AnalysisSummary) : List (List Char) :=
  analysis.error_patterns.map (fun e => e.pattern.map Char.toLower)

/-- The test `any(... 'connect' in pat or 'timeout' in pat)` (line 141). -/
def connTrigger (analysis : AnalysisSummary) : Bool :=
  (lowerPatterns analysis).any
    (fun p => containsSub p "connect".toList || containsSub p "timeout".toList)

/-- The test `any(... 'permission' in pat or 'denied' in pat)` (line 146). -/
def permTrigger (analysis : AnalysisSummary) : Bool :=
  (lowerPatterns analysis).any
    (fun p => containsSub p "permission".toList || containsSub p "denied".toList)

/-- The test `any(... 'memory' in pat or 'cpu' in pat or 'disk' in pat)` (line 151). -/
def resTrigger (analysis : AnalysisSummary) : Bool :=
  (lowerPatterns analysis).any
    (fun p => containsSub p "memory".toList || containsSub p "cpu".toList ||
      containsSub p "disk".toList)

/-- Embedding of `suggest_solutions` of `app/analyze_logs.py` (lines 138–161): each of
the three keyword rules is evaluated independently and appends its
suggestion; the fallback fires only when no rule matched. -/
def suggest_solutions (analysis : AnalysisSummary) : List Suggestion :=
  let solutions :=
    (if connTrigger analysis then [connectionSuggestion] else []) ++
    (if permTrigger analysis then [permissionSuggestion] else []) ++
    (if resTrigger analysis then [resourceSuggestion] else [])
  if solutions = [] then [uncategorizedSuggestion] else solutions

example : analyze_log_entries [] =
    { total_entries := 0, severity_distribution := [], components := [],
      time_pattern := none, error_patterns := [] } := by decide

example :
    analyze_log_entries
      ["2023-06-01 10:05:01 ERROR [Demo]: Connection failed".toList,
       "2023-06-01 10:10:02 ERROR [Demo]: Authentication failed".toList] =
    { total_entries := 2
      severity_distribution := [("ERROR".toList, 2)]
      components := [("Demo".toList, 2)]
      time_pattern := some ⟨"2023-06-01 10:05:01".toList, "2023-06-01 10:10:02".toList, 2⟩
      error_patterns :=
        [⟨"Demo".toList, "Connection failed".toList, 1⟩,
         ⟨"Demo".toList, "Authentication failed".toList, 1⟩] } := by decide

/-! ## Basic lemmas about the embedding -/

theorem parse_severity_eq (line : List Char) :
    (parse_log_entry line).severity =
      (match findSeverity line with
       | some (_, kw) => kw
       | none => "UNKNOWN".toList) := rfl

theorem parse_component_eq (line : List Char) :
    (parse_log_entry line).component = findComponent (postSeverityRemainder line) := rfl

theorem parse_message_eq (line : List Char) :
    (parse_log_entry line).message =
      (match findComponent (postSeverityRemainder line) with
       | some _ => stripChars (afterFirst (postSeverityRemainder line) ("]:".toList))
       | none => postSeverityRemainder line) := rfl

theorem afterFirst_of_not_contains (s sep : List Char) (h : containsSub s sep = false) :
    afterFirst s sep = s := by
  unfold containsSub at h
  unfold afterFirst
  rcases hf : findSubstr s sep with _ | i
  · rfl
  · rw [hf] at h; simp at h

/-! ## C7 -/

/-- C7: `analyze_log_entries` on the empty batch returns zero total
entries, empty severity and component maps, no time pattern and an empty
`error_patterns` list. -/
theorem C7_empty_batch :
    analyze_log_entries [] =
      { total_entries := 0, severity_distribution := [], components := [],
        time_pattern := none, error_patterns := [] } := by decide

/-! ## C5 -/

/-- C5: normalization applies the `<ID>` substitution before the `<NUM>`
substitution within one call; on
`"conn-id a1b2c3d4e5 failed after 30 retries"` the resulting pattern is
`"conn-id <ID> failed after <NUM> retries"`. -/
theorem C5_order_and_example :
    (∀ s : List Char, normalizePattern s = subNum (subId s)) ∧
    normalizePattern ("conn-id a1b2c3d4e5 failed after 30 retries".toList) =
      "conn-id <ID> failed after <NUM> retries".toList :=
  ⟨fun _ => rfl, by decide⟩

/-! ## C1 -/

/-- C1 is false on the code: on `"ERROR [Demo] Connection failed"` (severity
matched, component bracket found, no `]:` in the remainder) the message is
the whole remainder `"[Demo] Connection failed"`, not the text after the
bracket's closing `]` — `remainder.split(']:', 1)[-1]` degenerates to the
whole remainder, bracket included. -/
theorem C1_counterexample :
    (findSeverity ("ERROR [Demo] Connection failed".toList)).isSome = true ∧
    findComponent (postSeverityRemainder ("ERROR [Demo] Connection failed".toList)) =
      some ("Demo".toList) ∧
    containsSub (postSeverityRemainder ("ERROR [Demo] Connection failed".toList))
      ("]:".toList) = false ∧
    (parse_log_entry ("ERROR [Demo] Connection failed".toList)).message ≠
      stripChars (afterFirst (postSeverityRemainder ("ERROR [Demo] Connection failed".toList))
        ("]".toList)) := by decide

/-- C1 amended: for every line with a severity token and a component
bracket but no literal `]:` in the post-severity remainder, the message is
the entire post-severity remainder, trimmed — the bracketed component text
(and anything before it) stays in the message. -/
theorem C1_no_colon_message (line : List Char) (i : Nat) (kw comp : List Char)
    (_hs : findSeverity line = some (i, kw))
    (hc : findComponent (postSeverityRemainder line) = some comp)
    (hn : containsSub (postSeverityRemainder line) ("]:".toList) = false) :
    (parse_log_entry line).message = stripChars (postSeverityRemainder line) := by
  rw [parse_message_eq, hc, afterFirst_of_not_contains _ _ hn]

theorem C1_no_colon_message_witness :
    (parse_log_entry ("ERROR [Demo] Connection failed".toList)).message =
      stripChars (postSeverityRemainder ("ERROR [Demo] Connection failed".toList)) :=
  C1_no_colon_message ("ERROR [Demo] Connection failed".toList) 0 ("ERROR".toList)
    ("Demo".toList) (by decide) (by decide) (by decide)

/-! ## C2 -/

/-- C2 is false on the code: `"[Demo]: hello there"` has no severity
keyword, so severity is UNKNOWN, but the message is not the trimmed raw
line — the component branch still splits on `]:` and returns
`"hello there"`. -/
theorem C2_counterexample :
    findSeverity ("[Demo]: hello there".toList) = none ∧
    (parse_log_entry ("[Demo]: hello there".toList)).severity = "UNKNOWN".toList ∧
    (parse_log_entry ("[Demo]: hello there".toList)).message ≠
      stripChars ("[Demo]: hello there".toList) := by decide

/-- C2 amended: for every line with no recognizable severity keyword the
severity is UNKNOWN; the message is the raw line unchanged when the line
has no component bracket, and otherwise the text after the first `]:`,
trimmed (the whole line trimmed when `]:` is absent). -/
theorem C2_unknown_severity (line : List Char) (h : findSeverity line = none) :
    (parse_log_entry line).severity = "UNKNOWN".toList ∧
    (findComponent line = none → (parse_log_entry line).message = line) ∧
    (∀ comp, findComponent line = some comp →
      (parse_log_entry line).message = stripChars (afterFirst line ("]:".toList))) := by
  have hrem : postSeverityRemainder line = line := by
    unfold postSeverityRemainder; rw [h]
  refine ⟨?_, ?_, ?_⟩
  · rw [parse_severity_eq, h]
  · intro hc
    rw [parse_message_eq, hrem, hc]
  · intro comp hc
    rw [parse_message_eq, hrem, hc]

theorem C2_unknown_severity_witness :
    (parse_log_entry ("[Demo]: hello there".toList)).severity = "UNKNOWN".toList ∧
    (parse_log_entry ("[Demo]: hello there".toList)).message =
      stripChars (afterFirst ("[Demo]: hello there".toList) ("]:".toList)) :=
  ⟨(C2_unknown_severity ("[Demo]: hello there".toList) (by decide)).1,
   (C2_unknown_severity ("[Demo]: hello there".toList) (by decide)).2.2
     ("Demo".toList) (by decide)⟩

/-! ## C3 -/

theorem takeWhile_eq_self_of_all {α : Type} {p : α → Bool} :
    ∀ l : List α, (∀ c ∈ l, p c = true) → l.takeWhile p = l
  | [], _ => rfl
  | c :: cs, h => by
    have hc : p c = true := h c (by simp)
    have ih := takeWhile_eq_self_of_all cs (fun d hd => h d (by simp [hd]))
    simp [List.takeWhile_cons, hc, ih]

theorem subIdAux_past_end (s : List Char) :
    ∀ fuel p, s.length ≤ p → subIdAux s fuel p = []
  | 0, _, _ => rfl
  | fuel + 1, p, h => by
    simp only [subIdAux]
    rw [dif_neg (Nat.not_lt.mpr h)]

/-- C3 is false on the code: the `<ID>` regex is compiled without
`re.IGNORECASE`, so the upper-case hex run `DEADBEEF12` is NOT replaced by
`<ID>`; its digits are then consumed by the `<NUM>` mask. -/
theorem C3_counterexample :
    subId ("DEADBEEF12".toList) = "DEADBEEF12".toList ∧
    normalizePattern ("DEADBEEF12".toList) = "DEADBEEF<NUM>".toList ∧
    "DEADBEEF<NUM>".toList ≠ "<ID>".toList := by decide

/-- C3 amended: the first substitution replaces — case-SENSITIVELY — runs
of 8 or more lower-case hex digits or hyphens (`[a-f0-9-]{8,}`) standing
alone as a word with `<ID>`; an upper-case hex run such as `DEADBEEF12` is
not replaced by `<ID>` and is left for the digit mask. -/
theorem C3_lowercase_id_mask (run : List Char) (h8 : 8 ≤ run.length)
    (hcl : ∀ c ∈ run, isIdChar c = true)
    (hb0 : atBoundary run 0 = true)
    (hbn : atBoundary run run.length = true) :
    subId run = "<ID>".toList ∧
    normalizePattern ("DEADBEEF12".toList) = "DEADBEEF<NUM>".toList := by
  refine ⟨?_, by decide⟩
  have hlt : 0 < run.length := by omega
  obtain ⟨f, hf⟩ : ∃ f, run.length = f + 1 := ⟨run.length - 1, by omega⟩
  have hrun : (run.drop 0).takeWhile isIdChar = run := by
    rw [List.drop_zero, takeWhile_eq_self_of_all run hcl]
  have hbest : bestIdLen run 0 run.length = some run.length := by
    unfold bestIdLen
    rw [List.range_succ, List.reverse_append]
    simp [List.find?, Nat.zero_add, h8, hbn]
  unfold subId
  rw [hf]
  simp only [subIdAux]
  rw [dif_pos (hf ▸ hlt), if_pos hb0, hrun, hbest]
  show "<ID>".toList ++ subIdAux run f (0 + run.length) = "<ID>".toList
  rw [Nat.zero_add, subIdAux_past_end run f run.length (le_refl _), List.append_nil]

theorem C3_lowercase_id_mask_witness :
    subId ("a1b2c3d4e5".toList) = "<ID>".toList ∧
    normalizePattern ("DEADBEEF12".toList) = "DEADBEEF<NUM>".toList :=
  C3_lowercase_id_mask ("a1b2c3d4e5".toList) (by decide) (by decide) (by decide) (by decide)

/-! ## C4: lemmas about `findComponent`, stripping and `findSeverity` -/

theorem not_ws_lbracket (c : Char) (h : isPyWhitespace c = true) : c ≠ '[' := by
  intro hc; subst hc; exact absurd h (by decide)

theorem not_ws_rbracket (c : Char) (h : isPyWhitespace c = true) : c ≠ ']' := by
  intro hc; subst hc; exact absurd h (by decide)

theorem mem_takeWhile_pred {α : Type} (p : α → Bool) :
    ∀ l : List α, ∀ x ∈ l.takeWhile p, p x = true
  | [], x, hx => by simp [List.takeWhile] at hx
  | a :: l, x, hx => by
    cases hpa : p a with
    | false => rw [List.takeWhile_cons, hpa] at hx; simp at hx
    | true =>
      rw [List.takeWhile_cons, hpa] at hx
      rcases List.mem_cons.mp hx with rfl | hx'
      · exact hpa
      · exact mem_takeWhile_pred p l x hx'

theorem takeWhile_append_all {α : Type} (p : α → Bool) :
    ∀ l₁ l₂ : List α, (∀ x ∈ l₁, p x = true) →
      (l₁ ++ l₂).takeWhile p = l₁ ++ l₂.takeWhile p
  | [], l₂, _ => rfl
  | a :: l₁, l₂, h => by
    have ha := h a (by simp)
    have ih := takeWhile_append_all p l₁ l₂ (fun x hx => h x (by simp [hx]))
    simp [List.takeWhile_cons, ha, ih]

theorem takeWhile_append_stop {α : Type} (p : α → Bool) :
    ∀ l₁ l₂ : List α, (∃ x ∈ l₁, p x = false) →
      (l₁ ++ l₂).takeWhile p = l₁.takeWhile p
  | [], _, h => by simp at h
  | a :: l₁, l₂, h => by
    cases hpa : p a with
    | false => simp [List.takeWhile_cons, hpa]
    | true =>
      have h' : ∃ x ∈ l₁, p x = false := by
        rcases h with ⟨x, hx, hpx⟩
        rcases List.mem_cons.mp hx with rfl | hx'
        · rw [hpa] at hpx; exact absurd hpx (by simp)
        · exact ⟨x, hx', hpx⟩
      simp [List.takeWhile_cons, hpa, takeWhile_append_stop p l₁ l₂ h']

theorem length_takeWhile_lt {α : Type} (p : α → Bool) :
    ∀ l : List α, (∃ x ∈ l, p x = false) → (l.takeWhile p).length < l.length
  | [], h => by simp at h
  | a :: l, h => by
    cases hpa : p a with
    | false => simp [List.takeWhile_cons, hpa]
    | true =>
      have h' : ∃ x ∈ l, p x = false := by
        rcases h with ⟨x, hx, hpx⟩
        rcases List.mem_cons.mp hx with rfl | hx'
        · rw [hpa] at hpx; exact absurd hpx (by simp)
        · exact ⟨x, hx', hpx⟩
      simp only [List.takeWhile_cons, hpa, List.length_cons, if_true]
      exact Nat.succ_lt_succ (length_takeWhile_lt p l h')

theorem findComponent_cons_ne (c : Char) (rest : List Char) (h : c ≠ '[') :
    findComponent (c :: rest) = findComponent rest := by
  have hu : findComponent (c :: rest) =
      (if c = '[' then
        (let inner := rest.takeWhile (fun d => d ≠ ']')
         if inner.length ≠ 0 ∧ inner.length < rest.length then some inner
         else findComponent rest)
      else findComponent rest) := rfl
  rw [hu, if_neg h]

theorem findComponent_cons_lbracket (rest : List Char) :
    findComponent ('[' :: rest) =
      if (rest.takeWhile (fun d => d ≠ ']')).length ≠ 0 ∧
         (rest.takeWhile (fun d => d ≠ ']')).length < rest.length
      then some (rest.takeWhile (fun d => d ≠ ']'))
      else findComponent rest := by
  have hu : findComponent ('[' :: rest) =
      (if ('[' : Char) = '[' then
        (let inner := rest.takeWhile (fun d => d ≠ ']')
         if inner.length ≠ 0 ∧ inner.length < rest.length then some inner
         else findComponent rest)
      else findComponent rest) := rfl
  rw [hu, if_pos rfl]

theorem findComponent_all_ws :
    ∀ w : List Char, (∀ c ∈ w, isPyWhitespace c = true) → findComponent w = none
  | [], _ => rfl
  | c :: cs, h => by
    rw [findComponent_cons_ne c cs (not_ws_lbracket c (h c (by simp)))]
    exact findComponent_all_ws cs (fun d hd => h d (by simp [hd]))

theorem findComponent_append_ws :
    ∀ s w : List Char, (∀ c ∈ w, isPyWhitespace c = true) →
      findComponent (s ++ w) = findComponent s
  | [], w, hw => by simpa using findComponent_all_ws w hw
  | c :: s, w, hw => by
    by_cases hc : c = '['
    · subst hc
      rw [List.cons_append, findComponent_cons_lbracket, findComponent_cons_lbracket]
      by_cases hmem : ']' ∈ s
      · have hwit : ∃ x ∈ s, (fun d => decide (d ≠ ']')) x = false := ⟨']', hmem, by simp⟩
        rw [takeWhile_append_stop _ s w hwit]
        have hlt := length_takeWhile_lt (fun d => decide (d ≠ ']')) s hwit
        have hlt' : (s.takeWhile (fun d => decide (d ≠ ']'))).length < (s ++ w).length := by
          rw [List.length_append]; omega
        by_cases h0 : (s.takeWhile (fun d => decide (d ≠ ']'))).length ≠ 0
        · rw [if_pos ⟨h0, hlt'⟩, if_pos ⟨h0, hlt⟩]
        · rw [if_neg (fun hp => h0 hp.1), if_neg (fun hp => h0 hp.1)]
          exact findComponent_append_ws s w hw
      · have hall : ∀ x ∈ s, (fun d => decide (d ≠ ']')) x = true := by
          intro x hx
          simp only [decide_eq_true_eq]
          intro hx'; exact hmem (hx' ▸ hx)
        have hallw : ∀ x ∈ w, (fun d => decide (d ≠ ']')) x = true := by
          intro x hx
          simp only [decide_eq_true_eq]
          exact not_ws_rbracket x (hw x hx)
        rw [takeWhile_append_all _ s w hall, takeWhile_eq_self_of_all s hall,
          takeWhile_eq_self_of_all w hallw]
        rw [if_neg (by intro hp; exact absurd hp.2 (by simp)),
          if_neg (by intro hp; exact absurd hp.2 (by simp))]
        exact findComponent_append_ws s w hw
    · rw [List.cons_append, findComponent_cons_ne c (s ++ w) hc, findComponent_cons_ne c s hc]
      exact findComponent_append_ws s w hw

theorem findComponent_dropWhile_ws :
    ∀ s : List Char, findComponent (s.dropWhile isPyWhitespace) = findComponent s
  | [] => rfl
  | c :: cs => by
    cases hc : isPyWhitespace c with
    | true =>
      rw [List.dropWhile_cons, if_pos hc, findComponent_dropWhile_ws cs,
        findComponent_cons_ne c cs (not_ws_lbracket c hc)]
    | false =>
      rw [List.dropWhile_cons, if_neg (by simp [hc])]

theorem strip_decomp (s : List Char) :
    ∃ w, s.dropWhile isPyWhitespace = stripChars s ++ w ∧
      ∀ c ∈ w, isPyWhitespace c = true := by
  refine ⟨((s.dropWhile isPyWhitespace).reverse.takeWhile isPyWhitespace).reverse, ?_, ?_⟩
  · conv_lhs =>
      rw [← (s.dropWhile isPyWhitespace).reverse_reverse,
        ← List.takeWhile_append_dropWhile (p := isPyWhitespace)
          (l := (s.dropWhile isPyWhitespace).reverse)]
    rw [List.reverse_append]
    rfl
  · intro c hc
    rw [List.mem_reverse] at hc
    exact mem_takeWhile_pred isPyWhitespace _ c hc

theorem findComponent_strip (s : List Char) :
    findComponent (stripChars s) = findComponent s := by
  obtain ⟨w, hw, hws⟩ := strip_decomp s
  calc findComponent (stripChars s)
      = findComponent (stripChars s ++ w) := (findComponent_append_ws _ w hws).symm
    _ = findComponent (s.dropWhile isPyWhitespace) := by rw [← hw]
    _ = findComponent s := findComponent_dropWhile_ws s

theorem findSeverity_inv (s : List Char) (i : Nat) (kw : List Char)
    (h : findSeverity s = some (i, kw)) :
    kw ∈ severityKeywords ∧ matchKwAt s i kw = true := by
  unfold findSeverity at h
  obtain ⟨a, _, hfa⟩ := List.exists_of_findSome?_eq_some h
  rcases hk : findKwAt s a with _ | kw'
  · rw [hk] at hfa; simp at hfa
  · rw [hk] at hfa
    simp only [Option.map_some', Option.some_inj, Prod.mk.injEq] at hfa
    obtain ⟨rfl, rfl⟩ := hfa
    unfold findKwAt at hk
    exact ⟨List.mem_of_find?_eq_some hk, List.find?_some hk⟩

theorem matchedSlice_length (s : List Char) (i : Nat) (kw : List Char)
    (h : matchKwAt s i kw = true) : (matchedSlice s i kw).length = kw.length := by
  unfold matchKwAt at h
  simp only [Bool.and_eq_true, beq_iff_eq] at h
  have := congrArg List.length h.2
  simpa [matchedSlice] using this

/-- Modelled from the claim, for comparison with the code: the component
as C4 words it — contents of the first `[...]` bracket in the text
strictly after the matched severity token, or in the full line when no
severity matched. -/
def componentPerSpec (line : List Char) : Option (List Char) :=
  match findSeverity line with
  | some (i, kw) => findComponent (line.drop (i + kw.length))
  | none => findComponent line

/-- C4 is false on the code: on `"PRERROR [A] ERROR [B]: oops"` the
severity regex matches the standalone `ERROR` at index 12 (word boundaries
reject the one embedded in `PRERROR`), but
`line.split(severity_match.group(0), 1)` splits on the first substring
occurrence of `"ERROR"` — inside `PRERROR` — so the bracket search sees
`[A]`, not the `[B]` that follows the matched token. -/
theorem C4_counterexample :
    findSeverity ("PRERROR [A] ERROR [B]: oops".toList) = some (12, "ERROR".toList) ∧
    (parse_log_entry ("PRERROR [A] ERROR [B]: oops".toList)).component = some ("A".toList) ∧
    componentPerSpec ("PRERROR [A] ERROR [B]: oops".toList) = some ("B".toList) ∧
    (parse_log_entry ("PRERROR [A] ERROR [B]: oops".toList)).component ≠
      componentPerSpec ("PRERROR [A] ERROR [B]: oops".toList) := by decide

/-- C4 amended: the component bracket is searched in the text after the
FIRST SUBSTRING OCCURRENCE of the matched severity text; whenever that
first occurrence is the match itself (i.e. the matched text does not also
occur earlier in the line), the component is the contents of the first
bracket strictly after the matched severity token, as the spec words it. -/
theorem C4_component_after_token (line : List Char) (i : Nat) (kw : List Char)
    (hs : findSeverity line = some (i, kw))
    (hocc : findSubstr line (matchedSlice line i kw) = some i) :
    (parse_log_entry line).component = componentPerSpec line := by
  have hmat := (findSeverity_inv line i kw hs).2
  have hlen := matchedSlice_length line i kw hmat
  rw [parse_component_eq]
  unfold postSeverityRemainder componentPerSpec
  rw [hs]
  show findComponent (stripChars (afterFirst line (matchedSlice line i kw))) =
    findComponent (line.drop (i + kw.length))
  unfold afterFirst
  rw [hocc]
  show findComponent (stripChars (line.drop (i + (matchedSlice line i kw).length))) =
    findComponent (line.drop (i + kw.length))
  rw [hlen, findComponent_strip]

theorem C4_component_after_token_witness :
    (parse_log_entry ("xx ERROR [B]: oops".toList)).component =
      componentPerSpec ("xx ERROR [B]: oops".toList) :=
  C4_component_after_token ("xx ERROR [B]: oops".toList) 3 ("ERROR".toList)
    (by decide) (by decide)

/-! ## C10 -/

/-- C10: the severity search recognizes only the seven keywords — the
word `UNKNOWN` is not one of them and is never matched as a severity
token; every successful match yields one of the seven, and on a line
where the search fails the severity defaults to UNKNOWN and the component
bracket is searched in the full line. -/
theorem C10_only_seven_keywords :
    ("UNKNOWN".toList ∉ severityKeywords) ∧
    (∀ (line : List Char) (i : Nat) (kw : List Char),
      findSeverity line = some (i, kw) → kw ∈ severityKeywords) ∧
    (∀ line : List Char, findSeverity line = none →
      (parse_log_entry line).severity = "UNKNOWN".toList ∧
      (parse_log_entry line).component = findComponent line) := by
  refine ⟨by decide, ?_, ?_⟩
  · intro line i kw h
    exact (findSeverity_inv line i kw h).1
  · intro line h
    have hrem : postSeverityRemainder line = line := by
      unfold postSeverityRemainder; rw [h]
    exact ⟨by rw [parse_severity_eq, h], by rw [parse_component_eq, hrem]⟩

theorem C10_only_seven_keywords_witness :
    ("ERROR".toList ∈ severityKeywords) ∧
    ((parse_log_entry ("UNKNOWN [Sys] broken".toList)).severity = "UNKNOWN".toList ∧
     (parse_log_entry ("UNKNOWN [Sys] broken".toList)).component =
       findComponent ("UNKNOWN [Sys] broken".toList)) :=
  ⟨C10_only_seven_keywords.2.1 ("xx ERROR yy".toList) 3 ("ERROR".toList) (by decide),
   C10_only_seven_keywords.2.2 ("UNKNOWN [Sys] broken".toList) (by decide)⟩

/-! ## C8 -/

/-- C8: the three keyword rules of `suggest_solutions` are evaluated
independently — every triggered rule contributes its suggestion — and
when no rule triggers (whatever the patterns are; in particular on an
empty `error_patterns` list) the result is exactly the single
"Uncategorized errors" suggestion. -/
theorem C8_rules_independent (a : AnalysisSummary) :
    (connTrigger a = false → permTrigger a = false → resTrigger a = false →
      suggest_solutions a = [uncategorizedSuggestion]) ∧
    (a.error_patterns = [] → suggest_solutions a = [uncategorizedSuggestion]) ∧
    (connTrigger a = true → connectionSuggestion ∈ suggest_solutions a) ∧
    (permTrigger a = true → permissionSuggestion ∈ suggest_solutions a) ∧
    (resTrigger a = true → resourceSuggestion ∈ suggest_solutions a) := by
  have hfall : connTrigger a = false → permTrigger a = false → resTrigger a = false →
      suggest_solutions a = [uncategorizedSuggestion] := by
    intro h1 h2 h3
    simp [suggest_solutions, h1, h2, h3]
  refine ⟨hfall, ?_, ?_, ?_, ?_⟩
  · intro h
    have h1 : connTrigger a = false := by simp [connTrigger, lowerPatterns, h]
    have h2 : permTrigger a = false := by simp [permTrigger, lowerPatterns, h]
    have h3 : resTrigger a = false := by simp [resTrigger, lowerPatterns, h]
    exact hfall h1 h2 h3
  · intro h
    have hmem : connectionSuggestion ∈
        (if connTrigger a then [connectionSuggestion] else []) ++
        (if permTrigger a then [permissionSuggestion] else []) ++
        (if resTrigger a then [resourceSuggestion] else []) := by
      simp [h]
    unfold suggest_solutions
    rw [if_neg (List.ne_nil_of_mem hmem)]
    exact hmem
  · intro h
    have hmem : permissionSuggestion ∈
        (if connTrigger a then [connectionSuggestion] else []) ++
        (if permTrigger a then [permissionSuggestion] else []) ++
        (if resTrigger a then [resourceSuggestion] else []) := by
      simp [h]
    unfold suggest_solutions
    rw [if_neg (List.ne_nil_of_mem hmem)]
    exact hmem
  · intro h
    have hmem : resourceSuggestion ∈
        (if connTrigger a then [connectionSuggestion] else []) ++
        (if permTrigger a then [permissionSuggestion] else []) ++
        (if resTrigger a then [resourceSuggestion] else []) := by
      simp [h]
    unfold suggest_solutions
    rw [if_neg (List.ne_nil_of_mem hmem)]
    exact hmem

theorem C8_rules_independent_witness :
    suggest_solutions
      { total_entries := 1, severity_distribution := [], components := [],
        time_pattern := none,
        error_patterns := [⟨"App".toList, "foo failure with <NUM> items".toList, 1⟩] } =
      [uncategorizedSuggestion] ∧
    suggest_solutions
      { total_entries := 0, severity_distribution := [], components := [],
        time_pattern := none, error_patterns := [] } = [uncategorizedSuggestion] ∧
    connectionSuggestion ∈ suggest_solutions
      { total_entries := 3, severity_distribution := [], components := [],
        time_pattern := none,
        error_patterns :=
          [⟨"Net".toList, "Connection timeout after <NUM> s".toList, 2⟩,
           ⟨"FS".toList, "permission denied on file".toList, 1⟩,
           ⟨"Sys".toList, "out of memory error".toList, 1⟩] } ∧
    permissionSuggestion ∈ suggest_solutions
      { total_entries := 3, severity_distribution := [], components := [],
        time_pattern := none,
        error_patterns :=
          [⟨"Net".toList, "Connection timeout after <NUM> s".toList, 2⟩,
           ⟨"FS".toList, "permission denied on file".toList, 1⟩,
           ⟨"Sys".toList, "out of memory error".toList, 1⟩] } ∧
    resourceSuggestion ∈ suggest_solutions
      { total_entries := 3, severity_distribution := [], components := [],
        time_pattern := none,
        error_patterns :=
          [⟨"Net".toList, "Connection timeout after <NUM> s".toList, 2⟩,
           ⟨"FS".toList, "permission denied on file".toList, 1⟩,
           ⟨"Sys".toList, "out of memory error".toList, 1⟩] } :=
  ⟨(C8_rules_independent _).1 (by decide) (by decide) (by decide),
   (C8_rules_independent _).2.1 rfl,
   (C8_rules_independent _).2.2.1 (by decide),
   (C8_rules_independent _).2.2.2.1 (by decide),
   (C8_rules_independent _).2.2.2.2 (by decide)⟩

/-! ## C6: properties of `counterOf`, `sortByCountDesc` and `take 10` -/

/-- The keys of a list in the order of their first appearance. -/
def firstAppearances {α : Type} [DecidableEq α] (l : List α) : List α :=
  l.foldl (fun acc x => if x ∈ acc then acc else acc ++ [x]) []

theorem bump_fst {α : Type} [DecidableEq α] :
    ∀ (m : List (α × Nat)) (k : α),
      (bump m k).map Prod.fst =
        if k ∈ m.map Prod.fst then m.map Prod.fst else m.map Prod.fst ++ [k]
  | [], k => by simp [bump]
  | (a, n) :: rest, k => by
    by_cases hak : a = k
    · subst hak; simp [bump]
    · simp only [bump, if_neg hak, List.map_cons]
      rw [bump_fst rest k]
      by_cases hk : k ∈ rest.map Prod.fst
      · rw [if_pos hk, if_pos (by simp [hk])]
      · have hne : ¬ k ∈ (a :: rest.map Prod.fst) := by
          rw [List.mem_cons]
          push_neg
          exact ⟨fun h => hak h.symm, hk⟩
        rw [if_neg hk, if_neg hne]
        simp

theorem foldl_bump_fst {α : Type} [DecidableEq α] :
    ∀ (l : List α) (m : List (α × Nat)),
      (l.foldl bump m).map Prod.fst =
        l.foldl (fun acc x => if x ∈ acc then acc else acc ++ [x]) (m.map Prod.fst)
  | [], _ => rfl
  | x :: l, m => by
    simp only [List.foldl_cons]
    rw [foldl_bump_fst l (bump m x), bump_fst]

/-- The keys of `Counter(l)` are exactly the elements of `l` in
first-appearance order. -/
theorem counterOf_fst {α : Type} [DecidableEq α] (l : List α) :
    (counterOf l).map Prod.fst = firstAppearances l :=
  foldl_bump_fst l []

theorem mem_insertByCount {α : Type} (x : α × Nat) :
    ∀ (l : List (α × Nat)) (y : α × Nat), y ∈ insertByCount x l ↔ y = x ∨ y ∈ l
  | [], y => by simp [insertByCount]
  | z :: l, y => by
    unfold insertByCount
    by_cases h : x.2 ≤ z.2
    · rw [if_pos h]
      rw [List.mem_cons, mem_insertByCount x l y, List.mem_cons]
      tauto
    · rw [if_neg h]
      rw [List.mem_cons, List.mem_cons]

theorem pairwise_insertByCount {α : Type} (x : α × Nat) :
    ∀ l : List (α × Nat), l.Pairwise (fun a b => b.2 ≤ a.2) →
      (insertByCount x l).Pairwise (fun a b => b.2 ≤ a.2)
  | [], _ => by simp [insertByCount]
  | z :: l, h => by
    rcases List.pairwise_cons.mp h with ⟨hz, hl⟩
    unfold insertByCount
    by_cases hle : x.2 ≤ z.2
    · rw [if_pos hle]
      refine List.pairwise_cons.mpr ⟨?_, pairwise_insertByCount x l hl⟩
      intro y hy
      rcases (mem_insertByCount x l y).mp hy with rfl | hy'
      · exact hle
      · exact hz y hy'
    · rw [if_neg hle]
      refine List.pairwise_cons.mpr ⟨?_, h⟩
      intro y hy
      rcases List.mem_cons.mp hy with rfl | hy'
      · omega
      · have := hz y hy'; omega

theorem foldl_insertByCount_pairwise {α : Type} :
    ∀ (l acc : List (α × Nat)), acc.Pairwise (fun a b => b.2 ≤ a.2) →
      (l.foldl (fun acc x => insertByCount x acc) acc).Pairwise (fun a b => b.2 ≤ a.2)
  | [], _, h => h
  | x :: l, acc, h => by
    simp only [List.foldl_cons]
    exact foldl_insertByCount_pairwise l (insertByCount x acc) (pairwise_insertByCount x acc h)

/-- The ranked list is sorted by count, descending. -/
theorem sortByCountDesc_pairwise {α : Type} (l : List (α × Nat)) :
    (sortByCountDesc l).Pairwise (fun a b => b.2 ≤ a.2) :=
  foldl_insertByCount_pairwise l [] (by simp)

theorem filter_insertByCount_ne {α : Type} (x : α × Nat) (n : Nat) (hx : ¬ x.2 = n) :
    ∀ l : List (α × Nat),
      (insertByCount x l).filter (fun e => e.2 = n) = l.filter (fun e => e.2 = n)
  | [] => by simp [insertByCount, hx]
  | z :: l => by
    unfold insertByCount
    by_cases hle : x.2 ≤ z.2
    · rw [if_pos hle]
      simp only [List.filter_cons]
      rw [filter_insertByCount_ne x n hx l]
    · rw [if_neg hle]
      simp [List.filter_cons, hx]

theorem filter_insertByCount_eq {α : Type} (x : α × Nat) (n : Nat) (hx : x.2 = n) :
    ∀ l : List (α × Nat), l.Pairwise (fun a b => b.2 ≤ a.2) →
      (insertByCount x l).filter (fun e => e.2 = n) =
        l.filter (fun e => e.2 = n) ++ [x]
  | [], _ => by simp [insertByCount, hx]
  | z :: l, h => by
    rcases List.pairwise_cons.mp h with ⟨hz, hl⟩
    unfold insertByCount
    by_cases hle : x.2 ≤ z.2
    · rw [if_pos hle]
      simp only [List.filter_cons]
      rw [filter_insertByCount_eq x n hx l hl]
      by_cases hzn : z.2 = n <;> simp [hzn]
    · rw [if_neg hle]
      have hzn : ¬ z.2 = n := by omega
      have hfl : l.filter (fun e => e.2 = n) = [] := by
        rw [List.filter_eq_nil_iff]
        intro y hy
        have := hz y hy
        simp only [decide_eq_true_eq]
        omega
      simp [List.filter_cons, hx, hzn, hfl]

theorem filter_foldl_insertByCount {α : Type} (n : Nat) :
    ∀ (l acc : List (α × Nat)), acc.Pairwise (fun a b => b.2 ≤ a.2) →
      (l.foldl (fun acc x => insertByCount x acc) acc).filter (fun e => e.2 = n) =
        acc.filter (fun e => e.2 = n) ++ l.filter (fun e => e.2 = n)
  | [], acc, _ => by simp
  | x :: l, acc, h => by
    simp only [List.foldl_cons]
    rw [filter_foldl_insertByCount n l (insertByCount x acc) (pairwise_insertByCount x acc h)]
    by_cases hx : x.2 = n
    · rw [filter_insertByCount_eq x n hx acc h]
      simp [List.filter_cons, hx, List.append_assoc]
    · rw [filter_insertByCount_ne x n hx acc]
      simp [List.filter_cons, hx]

/-- Stability of the ranking: within one count value, the sorted list
keeps the original (first-appearance) order. -/
theorem filter_sortByCountDesc {α : Type} (n : Nat) (l : List (α × Nat)) :
    (sortByCountDesc l).filter (fun e => e.2 = n) = l.filter (fun e => e.2 = n) := by
  unfold sortByCountDesc
  rw [filter_foldl_insertByCount n l [] (by simp)]
  simp

/-- C6: `error_patterns` has length at most 10, counts are monotonically
non-increasing across the sequence, and ties keep first-appearance order:
the counter's keys are in first-appearance order, and for every count
value the returned rows are a prefix of the counter's rows with that
count. -/
theorem C6_top10_ranking (entries : List (List Char)) :
    (analyze_log_entries entries).error_patterns.length ≤ 10 ∧
    (analyze_log_entries entries).error_patterns.Pairwise
      (fun a b => b.count ≤ a.count) ∧
    (patternCounter entries).map Prod.fst = firstAppearances (patternPairs entries) ∧
    (∀ n : Nat, ∃ rest,
      ((patternCounter entries).filter (fun kv => kv.2 = n)).map
          (fun kc => ErrorPattern.mk kc.1.1 kc.1.2 kc.2) =
        ((analyze_log_entries entries).error_patterns.filter
          (fun e => e.count = n)) ++ rest) := by
  have hep : (analyze_log_entries entries).error_patterns =
      (commonPatterns entries).map (fun kc => ErrorPattern.mk kc.1.1 kc.1.2 kc.2) := rfl
  refine ⟨?_, ?_, counterOf_fst _, ?_⟩
  · rw [hep, List.length_map]
    unfold commonPatterns mostCommon10
    exact List.length_take_le 10 _
  · rw [hep]
    have h1 := sortByCountDesc_pairwise (patternCounter entries)
    have h2 : (commonPatterns entries).Pairwise (fun a b => b.2 ≤ a.2) := by
      unfold commonPatterns mostCommon10
      exact h1.sublist (List.take_sublist 10 _)
    exact h2.map _ (fun a b h => h)
  · intro n
    refine ⟨(((sortByCountDesc (patternCounter entries)).drop 10).filter
      (fun kv => kv.2 = n)).map (fun kc => ErrorPattern.mk kc.1.1 kc.1.2 kc.2), ?_⟩
    have h1 : (patternCounter entries).filter (fun kv => kv.2 = n) =
        ((sortByCountDesc (patternCounter entries)).take 10).filter (fun kv => kv.2 = n) ++
        ((sortByCountDesc (patternCounter entries)).drop 10).filter (fun kv => kv.2 = n) := by
      rw [← List.filter_append, List.take_append_drop, filter_sortByCountDesc]
    rw [hep, h1, List.map_append]
    congr 1
    show (((sortByCountDesc (patternCounter entries)).take 10).filter
        (fun kv => kv.2 = n)).map (fun kc => ErrorPattern.mk kc.1.1 kc.1.2 kc.2) =
      (((sortByCountDesc (patternCounter entries)).take 10).map
        (fun kc => ErrorPattern.mk kc.1.1 kc.1.2 kc.2)).filter (fun e => e.count = n)
    rw [List.filter_map]
    rfl

/-! ## C9: provenance of the error buffers -/

/-- Sum of the counts of a counter (how many increments it received). -/
def sumCounts {α : Type} : List (α × Nat) → Nat
  | [] => 0
  | (_, n) :: rest => n + sumCounts rest

theorem sumCounts_bump {α : Type} [DecidableEq α] :
    ∀ (m : List (α × Nat)) (k : α), sumCounts (bump m k) = sumCounts m + 1
  | [], k => by simp [bump, sumCounts]
  | (a, n) :: rest, k => by
    by_cases hak : a = k
    · subst hak
      simp only [bump, if_pos rfl, sumCounts]
      omega
    · simp only [bump, if_neg hak, sumCounts]
      rw [sumCounts_bump rest k]
      omega

theorem aggStepP_sevs (st : AggState) (p : LogEntry) :
    (aggStepP st p).sevs = bump st.sevs p.severity := by
  rcases p with ⟨raw, ts, sev, comp, msg⟩
  unfold aggStepP
  rcases comp with _ | c <;> rcases ts with _ | t <;> rfl

theorem aggStep_sevs (st : AggState) (c : List Char) :
    (aggStep st c).sevs = bump st.sevs (parse_log_entry c).severity :=
  aggStepP_sevs st (parse_log_entry c)

theorem aggStepP_ebc_none (st : AggState) (p : LogEntry)
    (h : p.component = none) : (aggStepP st p).ebc = st.ebc := by
  rcases p with ⟨raw, ts, sev, comp, msg⟩
  change comp = none at h
  subst h
  unfold aggStepP
  rcases ts with _ | t <;> rfl

theorem aggStep_ebc_none (st : AggState) (c : List Char)
    (h : (parse_log_entry c).component = none) : (aggStep st c).ebc = st.ebc :=
  aggStepP_ebc_none st (parse_log_entry c) h

theorem aggStepP_ebc_some_err (st : AggState) (p : LogEntry) (comp : List Char)
    (h : p.component = some comp) (hs : p.severity ∈ errorSeverities) :
    (aggStepP st p).ebc = ebcAdd st.ebc comp p.message := by
  rcases p with ⟨raw, ts, sev, pcomp, msg⟩
  change pcomp = some comp at h
  subst h
  change sev ∈ errorSeverities at hs
  unfold aggStepP
  rcases ts with _ | t <;> simp [hs]

theorem aggStep_ebc_some_err (st : AggState) (c : List Char) (comp : List Char)
    (h : (parse_log_entry c).component = some comp)
    (hs : (parse_log_entry c).severity ∈ errorSeverities) :
    (aggStep st c).ebc = ebcAdd st.ebc comp (parse_log_entry c).message :=
  aggStepP_ebc_some_err st (parse_log_entry c) comp h hs

theorem aggStepP_ebc_some_nonerr (st : AggState) (p : LogEntry) (comp : List Char)
    (h : p.component = some comp) (hs : p.severity ∉ errorSeverities) :
    (aggStepP st p).ebc = st.ebc := by
  rcases p with ⟨raw, ts, sev, pcomp, msg⟩
  change pcomp = some comp at h
  subst h
  change sev ∉ errorSeverities at hs
  unfold aggStepP
  rcases ts with _ | t <;> simp [hs]

theorem aggStep_ebc_some_nonerr (st : AggState) (c : List Char) (comp : List Char)
    (h : (parse_log_entry c).component = some comp)
    (hs : (parse_log_entry c).severity ∉ errorSeverities) :
    (aggStep st c).ebc = st.ebc :=
  aggStepP_ebc_some_nonerr st (parse_log_entry c) comp h hs

theorem foldl_sevs_sum :
    ∀ (l : List (List Char)) (st : AggState),
      sumCounts ((l.foldl aggStep st).sevs) = sumCounts st.sevs + l.length
  | [], _ => by simp
  | c :: l, st => by
    simp only [List.foldl_cons, List.length_cons]
    rw [foldl_sevs_sum l (aggStep st c), aggStep_sevs, sumCounts_bump]
    omega

theorem mem_ebcAdd :
    ∀ (m : List (List Char × List (List Char))) (k v : List Char)
      (ce : List Char × List (List Char)), ce ∈ ebcAdd m k v → ∀ e ∈ ce.2,
      (∃ ce' ∈ m, ce'.1 = ce.1 ∧ e ∈ ce'.2) ∨ (ce.1 = k ∧ e = v)
  | [], k, v, ce, hce, e, he => by
    simp only [ebcAdd, List.mem_singleton] at hce
    subst hce
    simp only [List.mem_singleton] at he
    exact Or.inr ⟨rfl, he⟩
  | (a, vs) :: rest, k, v, ce, hce, e, he => by
    by_cases hak : a = k
    · subst hak
      rw [show ebcAdd ((a, vs) :: rest) a v = (a, vs ++ [v]) :: rest from by
        simp [ebcAdd]] at hce
      rcases List.mem_cons.mp hce with rfl | hrest
      · rcases List.mem_append.mp he with hv | hv
        · exact Or.inl ⟨(a, vs), by simp, rfl, hv⟩
        · simp only [List.mem_singleton] at hv
          exact Or.inr ⟨rfl, hv⟩
      · exact Or.inl ⟨ce, by simp [hrest], rfl, he⟩
    · rw [show ebcAdd ((a, vs) :: rest) k v = (a, vs) :: ebcAdd rest k v from by
        simp [ebcAdd, hak]] at hce
      rcases List.mem_cons.mp hce with rfl | hrest
      · exact Or.inl ⟨(a, vs), by simp, rfl, he⟩
      · rcases mem_ebcAdd rest k v ce hrest e he with ⟨ce', hm, hf, hee⟩ | hr
        · exact Or.inl ⟨ce', by simp [hm], hf, hee⟩
        · exact Or.inr hr

/-- Some entry of `entries` put message `e` into component `comp`'s error
buffer: it parsed to that component with an error-class severity. -/
def ErrSource (entries : List (List Char)) (comp e : List Char) : Prop :=
  ∃ line ∈ entries, (parse_log_entry line).component = some comp ∧
    (parse_log_entry line).severity ∈ errorSeverities ∧
    (parse_log_entry line).message = e

theorem foldl_ebc_prov :
    ∀ (l : List (List Char)) (st : AggState)
      (ce : List Char × List (List Char)), ce ∈ (l.foldl aggStep st).ebc →
      ∀ e ∈ ce.2,
      (∃ ce' ∈ st.ebc, ce'.1 = ce.1 ∧ e ∈ ce'.2) ∨ ErrSource l ce.1 e
  | [], _, ce, hce, e, he => Or.inl ⟨ce, hce, rfl, he⟩
  | c :: l, st, ce, hce, e, he => by
    simp only [List.foldl_cons] at hce
    rcases foldl_ebc_prov l (aggStep st c) ce hce e he with ⟨ce', hm, hf, hee⟩ | hr
    · rcases hcomp : (parse_log_entry c).component with _ | comp
      · rw [aggStep_ebc_none st c hcomp] at hm
        exact Or.inl ⟨ce', hm, hf, hee⟩
      · by_cases hsev : (parse_log_entry c).severity ∈ errorSeverities
        · rw [aggStep_ebc_some_err st c comp hcomp hsev] at hm
          rcases mem_ebcAdd st.ebc comp (parse_log_entry c).message ce' hm e hee with
            ⟨ce'', hm2, hf2, he2⟩ | ⟨hk, hv⟩
          · exact Or.inl ⟨ce'', hm2, hf2.trans hf, he2⟩
          · refine Or.inr ⟨c, by simp, ?_, hsev, hv.symm⟩
            rw [hcomp]
            exact congrArg some (hk.symm.trans hf)
        · rw [aggStep_ebc_some_nonerr st c comp hcomp hsev] at hm
          exact Or.inl ⟨ce', hm, hf, hee⟩
    · rcases hr with ⟨line, hl, hrest⟩
      exact Or.inr ⟨line, by simp [hl], hrest⟩

theorem mem_foldl_insertByCount {α : Type} :
    ∀ (l acc : List (α × Nat)) (x : α × Nat),
      x ∈ l.foldl (fun acc y => insertByCount y acc) acc → x ∈ acc ∨ x ∈ l
  | [], _, _, h => Or.inl h
  | y :: l, acc, x, h => by
    simp only [List.foldl_cons] at h
    rcases mem_foldl_insertByCount l (insertByCount y acc) x h with h' | h'
    · rcases (mem_insertByCount y acc x).mp h' with rfl | h''
      · exact Or.inr (by simp)
      · exact Or.inl h''
    · exact Or.inr (by simp [h'])

theorem mem_sortByCountDesc {α : Type} (l : List (α × Nat)) (x : α × Nat)
    (h : x ∈ sortByCountDesc l) : x ∈ l := by
  rcases mem_foldl_insertByCount l [] x h with h' | h'
  · simp at h'
  · exact h'

theorem mem_bump_key {α : Type} [DecidableEq α] :
    ∀ (m : List (α × Nat)) (kp k : α) (n : Nat),
      (k, n) ∈ bump m kp → (∃ n', (k, n') ∈ m) ∨ k = kp
  | [], kp, k, n, h => by
    simp only [bump, List.mem_singleton, Prod.mk.injEq] at h
    exact Or.inr h.1
  | (a, na) :: rest, kp, k, n, h => by
    by_cases hak : a = kp
    · subst hak
      rw [show bump ((a, na) :: rest) a = (a, na + 1) :: rest from by simp [bump]] at h
      rcases List.mem_cons.mp h with heq | hrest
      · have : k = a := by
          have := congrArg Prod.fst heq
          simpa using this
        exact Or.inr this
      · exact Or.inl ⟨n, by simp [hrest]⟩
    · rw [show bump ((a, na) :: rest) kp = (a, na) :: bump rest kp from by
        simp [bump, hak]] at h
      rcases List.mem_cons.mp h with heq | hrest
      · exact Or.inl ⟨n, by simp [heq]⟩
      · rcases mem_bump_key rest kp k n hrest with ⟨n', hm⟩ | hk
        · exact Or.inl ⟨n', by simp [hm]⟩
        · exact Or.inr hk

theorem counterOf_key_mem {α : Type} [DecidableEq α] :
    ∀ (l : List α) (m : List (α × Nat)) (k : α) (n : Nat),
      (k, n) ∈ l.foldl bump m → (∃ n', (k, n') ∈ m) ∨ k ∈ l
  | [], _, _, n, h => Or.inl ⟨n, h⟩
  | x :: l, m, k, n, h => by
    simp only [List.foldl_cons] at h
    rcases counterOf_key_mem l (bump m x) k n h with ⟨n', hm⟩ | hk
    · rcases mem_bump_key m x k n' hm with ⟨n'', hm2⟩ | rfl
      · exact Or.inl ⟨n'', hm2⟩
      · exact Or.inr (by simp)
    · exact Or.inr (by simp [hk])

theorem mem_patternPairs (entries : List (List Char)) (pr : List Char × List Char)
    (h : pr ∈ patternPairs entries) :
    ∃ ce ∈ (aggLoop entries).ebc, ∃ e ∈ ce.2,
      e ≠ [] ∧ 10 < e.length ∧ pr = (ce.1, normalizePattern e) := by
  unfold patternPairs at h
  rw [List.mem_flatten] at h
  obtain ⟨sub, hsub, hpr⟩ := h
  rw [List.mem_map] at hsub
  obtain ⟨ce, hce, rfl⟩ := hsub
  rw [List.mem_filterMap] at hpr
  obtain ⟨e, he, hopt⟩ := hpr
  by_cases hcond : e ≠ [] ∧ 10 < e.length
  · rw [if_pos hcond] at hopt
    obtain rfl := Option.some_inj.mp hopt
    exact ⟨ce, hce, e, he, hcond.1, hcond.2, rfl⟩
  · rw [if_neg hcond] at hopt
    exact absurd hopt (by simp)

/-- C9: every entry is counted in `total_entries` and exactly once in
`severity_distribution`, but a row can reach `error_patterns` only via an
entry that parsed with BOTH a component and an ERROR/CRITICAL/FATAL
severity — an entry lacking a component never contributes a
(component, pattern) key. -/
theorem C9_component_and_severity_required (entries : List (List Char)) :
    (analyze_log_entries entries).total_entries = entries.length ∧
    sumCounts (analyze_log_entries entries).severity_distribution = entries.length ∧
    (∀ ep ∈ (analyze_log_entries entries).error_patterns,
      ∃ line ∈ entries,
        (parse_log_entry line).component = some ep.component ∧
        (parse_log_entry line).severity ∈ errorSeverities ∧
        normalizePattern (parse_log_entry line).message = ep.pattern) := by
  refine ⟨rfl, ?_, ?_⟩
  · show sumCounts ((aggLoop entries).sevs) = entries.length
    unfold aggLoop
    rw [foldl_sevs_sum]
    simp [sumCounts]
  · intro ep hep
    have hrepr : (analyze_log_entries entries).error_patterns =
        (commonPatterns entries).map (fun kc => ErrorPattern.mk kc.1.1 kc.1.2 kc.2) := rfl
    rw [hrepr, List.mem_map] at hep
    obtain ⟨kc, hkc, rfl⟩ := hep
    have h1 : kc ∈ sortByCountDesc (patternCounter entries) := by
      have : kc ∈ (sortByCountDesc (patternCounter entries)).take 10 := hkc
      exact List.take_subset 10 _ this
    have h2 : kc ∈ patternCounter entries := mem_sortByCountDesc _ _ h1
    have h2' : (kc.1, kc.2) ∈ patternCounter entries := by
      rw [Prod.mk.eta]; exact h2
    have h3 : kc.1 ∈ patternPairs entries := by
      rcases counterOf_key_mem (patternPairs entries) [] kc.1 kc.2 h2' with ⟨n', hm⟩ | hk
      · exact absurd hm (by simp)
      · exact hk
    obtain ⟨ce, hce, e, he, _, _, hpr⟩ := mem_patternPairs entries kc.1 h3
    rcases foldl_ebc_prov entries ⟨[], [], [], []⟩ ce hce e he with ⟨ce', hm, _, _⟩ | hsrc
    · exact absurd hm (by simp)
    · obtain ⟨line, hline, hcomp, hsev, hmsg⟩ := hsrc
      refine ⟨line, hline, ?_, hsev, ?_⟩
      · rw [hcomp]
        show some ce.1 = some (kc.1.1)
        rw [hpr]
      · rw [hmsg]
        show normalizePattern e = kc.1.2
        rw [hpr]

theorem C9_component_and_severity_required_witness :
    ∃ line ∈ ["2023-06-01 10:05:01 ERROR [Demo]: Connection failure detected".toList],
      (parse_log_entry line).component = some ("Demo".toList) ∧
      (parse_log_entry line).severity ∈ errorSeverities ∧
      normalizePattern (parse_log_entry line).message =
        "Connection failure detected".toList :=
  (C9_component_and_severity_required
      ["2023-06-01 10:05:01 ERROR [Demo]: Connection failure detected".toList]).2.2
    ⟨"Demo".toList, "Connection failure detected".toList, 1⟩ (by decide)
